import Mathlib

/-!
Shallow embedding of `src/Recast/Source/RecastFilter.cpp` (the three span
filters of the Recast navigation-mesh pipeline) and verification of the
specification's claims about them.

Spans carry voxel bounds `smin`/`smax` (unsigned bitfields in the C code,
modelled as `Nat`) and an `area` byte; all arithmetic in the filters is done
on C `int`, modelled as `Int` (values stay far below any overflow bound).
A heightfield is a `width × height` grid of columns stored in a flat list
indexed by `x + y * width`, each column an ordered list of spans.
-/

/-- Modelled from the spec: the reserved area sentinel meaning "not walkable"
(`RC_NULL_AREA` in Recast.h, which is not part of the sources; the spec calls
it "a reserved sentinel meaning not walkable"). -/
def RC_NULL_AREA : Nat := 0

/-- Sentinel for an unbounded span top, `const int MAX_HEIGHT = 0xffff` in
`rcFilterLedgeSpans` and `rcFilterWalkableLowHeightSpans`. -/
def MAX_HEIGHT : Int := 0xffff

/-- Modelled from the spec: x-offsets of the fixed 4-direction neighbor table
(`rcGetDirOffsetX` in Recast.h, which is not part of the sources; the spec
says "fixed mapping from 4 cardinal directions to grid coordinate offsets",
order internally consistent but not semantically meaningful). -/
def rcGetDirOffsetX (dir : Nat) : Int := [-1, 0, 1, 0].getD dir 0

/-- Modelled from the spec: y-offsets of the fixed 4-direction neighbor table
(`rcGetDirOffsetY` in Recast.h, see `rcGetDirOffsetX`). -/
def rcGetDirOffsetY (dir : Nat) : Int := [0, 1, 0, -1].getD dir 0

/-- A span: voxel interval bounds `smin ≤ smax` and an area classification
byte (`rcSpan` in Recast.h; the filters read `smin`/`smax` and read/write
`area`; the `next` link is represented by list order in a column). -/
structure rcSpan where
  smin : Nat
  smax : Nat
  area : Nat
deriving DecidableEq

/-- Default span used as the `List.getD` fallback in statements. -/
def defSpan : rcSpan := ⟨0, 0, 0⟩

/-- A heightfield: grid dimensions and the `width*height` columns stored
flat, column `(x, y)` at index `x + y * width` (`rcHeightfield` in Recast.h;
only the fields the filters use are modelled). -/
structure rcHeightfield where
  width : Nat
  height : Nat
  spans : List (List rcSpan)
deriving DecidableEq

/-- Column accessor: `solid.spans[x + y*w]`, the empty column if the index is
out of range of the stored list. -/
def rcHeightfield.col (hf : rcHeightfield) (x y : Nat) : List rcSpan :=
  hf.spans.getD (x + y * hf.width) []

/-- Apply `f i c` to the column at each flat index `i` (helper used to express
the per-column passes; the C code iterates cells `(x, y)` in row-major order,
and for the per-column passes the columns are independent, so an indexed map
is exact). -/
def mapCols (f : Nat → List rcSpan → List rcSpan) : Nat → List (List rcSpan) → List (List rcSpan)
  | _, [] => []
  | i, c :: rest => f i c :: mapCols f (i + 1) rest

/-- Column body of `rcFilterLowHangingWalkableObstacles` (RecastFilter.cpp
lines 50-68): walk the spans bottom-to-top carrying `previousWalkable`,
`previousArea` and the previous span's `smax` (the C code keeps a pointer
`ps`; it is dereferenced only under `previousWalkable`, which is false at the
first span, so carrying the bare `smax` with a dummy initial value is exact).
`previousArea` is read back from `s->area` after the possible update. -/
def lowHangCol (walkableClimb : Int) : Bool → Nat → Nat → List rcSpan → List rcSpan
  | _, _, _, [] => []
  | previousWalkable, previousArea, previousSmax, s :: rest =>
    let walkable : Bool := decide (s.area ≠ RC_NULL_AREA)
    let area' : Nat :=
      if walkable = false ∧ previousWalkable = true ∧
          |((s.smax : Int) - (previousSmax : Int))| ≤ walkableClimb
      then previousArea else s.area
    { s with area := area' } :: lowHangCol walkableClimb walkable area' s.smax rest

/-- `rcFilterLowHangingWalkableObstacles` (RecastFilter.cpp lines 36-71):
every in-grid column is processed independently with initial state
`ps = null, previousWalkable = false, previousArea = RC_NULL_AREA`. -/
def rcFilterLowHangingWalkableObstacles (walkableClimb : Int) (hf : rcHeightfield) : rcHeightfield :=
  let spans' := mapCols
    (fun i c => if i < hf.width * hf.height
      then lowHangCol walkableClimb false RC_NULL_AREA 0 c else c) 0 hf.spans
  { hf with spans := spans' }

/-- Column body of `rcFilterWalkableLowHeightSpans` (RecastFilter.cpp lines
196-202): `bot = s.smax`, `top` = next span's `smin` or `MAX_HEIGHT`; if
`top - bot ≤ walkableHeight` the area is set to `RC_NULL_AREA`. -/
def lowHeightCol (walkableHeight : Int) : List rcSpan → List rcSpan
  | [] => []
  | s :: rest =>
    let bot : Int := s.smax
    let top : Int := match rest with
      | [] => MAX_HEIGHT
      | n :: _ => n.smin
    let area' : Nat := if top - bot ≤ walkableHeight then RC_NULL_AREA else s.area
    { s with area := area' } :: lowHeightCol walkableHeight rest

/-- `rcFilterWalkableLowHeightSpans` (RecastFilter.cpp lines 179-205). -/
def rcFilterWalkableLowHeightSpans (walkableHeight : Int) (hf : rcHeightfield) : rcHeightfield :=
  let spans' := mapCols
    (fun i c => if i < hf.width * hf.height
      then lowHeightCol walkableHeight c else c) 0 hf.spans
  { hf with spans := spans' }

/-- Accumulator of the ledge scan (RecastFilter.cpp lines 109-113): running
minimum `minh` of neighbour height deltas and min/max `asmin`/`asmax` of
accessible neighbour heights. -/
structure LedgeState where
  minh : Int
  asmin : Int
  asmax : Int
deriving DecidableEq

/-- Inner loop of the ledge scan over the real spans of one neighbour column
(RecastFilter.cpp lines 135-152): for each neighbour span `ns`, with
`nbot = ns.smax` and `ntop` = its successor's `smin` or `MAX_HEIGHT`, if the
vertical overlap `min(top,ntop) - max(bot,nbot)` exceeds `walkableHeight`,
fold `nbot - bot` into `minh`, and when additionally
`|nbot - bot| ≤ walkableClimb` update `asmin`/`asmax` with `nbot`. -/
def ledgeNeighborLoop (walkableHeight walkableClimb bot top : Int) :
    List rcSpan → LedgeState → LedgeState
  | [], st => st
  | ns :: rest, st =>
    let nbot : Int := ns.smax
    let ntop : Int := match rest with
      | [] => MAX_HEIGHT
      | n2 :: _ => n2.smin
    let st' : LedgeState :=
      if min top ntop - max bot nbot > walkableHeight then
        let st1 : LedgeState := { st with minh := min st.minh (nbot - bot) }
        if |nbot - bot| ≤ walkableClimb then
          { st1 with asmin := min st1.asmin nbot, asmax := max st1.asmax nbot }
        else st1
      else st
    ledgeNeighborLoop walkableHeight walkableClimb bot top rest st'

/-- Per-direction in-grid part of the ledge scan (RecastFilter.cpp lines
126-152): first the virtual span from minus infinity to the first real span
(`nbot = -walkableClimb`, `ntop` = first real span's `smin` or `MAX_HEIGHT`),
which on sufficient overlap updates only `minh`, then the real spans. -/
def ledgeDirCol (walkableHeight walkableClimb bot top : Int)
    (ncol : List rcSpan) (st : LedgeState) : LedgeState :=
  let nbot : Int := -walkableClimb
  let ntop : Int := match ncol with
    | [] => MAX_HEIGHT
    | ns :: _ => ns.smin
  let st' : LedgeState :=
    if min top ntop - max bot nbot > walkableHeight then
      { st with minh := min st.minh (nbot - bot) }
    else st
  ledgeNeighborLoop walkableHeight walkableClimb bot top ncol st'

/-- Direction loop of the ledge scan (RecastFilter.cpp lines 115-153): an
out-of-grid direction folds `-walkableClimb - bot` into `minh`; an in-grid
direction scans the neighbour column. -/
def ledgeDirs (walkableHeight walkableClimb : Int) (hf : rcHeightfield) (x y : Nat)
    (bot top : Int) : List Nat → LedgeState → LedgeState
  | [], st => st
  | dir :: dirs, st =>
    let dx : Int := (x : Int) + rcGetDirOffsetX dir
    let dy : Int := (y : Int) + rcGetDirOffsetY dir
    let st' : LedgeState :=
      if dx < 0 ∨ dy < 0 ∨ dx ≥ (hf.width : Int) ∨ dy ≥ (hf.height : Int) then
        { st with minh := min st.minh (-walkableClimb - bot) }
      else
        ledgeDirCol walkableHeight walkableClimb bot top (hf.col dx.toNat dy.toNat) st
    ledgeDirs walkableHeight walkableClimb hf x y bot top dirs st'

/-- New area of one span under the ledge pass (RecastFilter.cpp lines
101-167): non-walkable spans are skipped; otherwise run the 4-direction scan
from `minh = MAX_HEIGHT`, `asmin = asmax = s.smax` and null the area when
`minh < -walkableClimb` or `asmax - asmin > walkableClimb`. -/
def ledgeSpanArea (walkableHeight walkableClimb : Int) (hf : rcHeightfield)
    (x y : Nat) (s : rcSpan) (top : Int) : Nat :=
  if s.area = RC_NULL_AREA then s.area
  else
    let bot : Int := s.smax
    let st := ledgeDirs walkableHeight walkableClimb hf x y bot top [0, 1, 2, 3]
      ⟨MAX_HEIGHT, (s.smax : Int), (s.smax : Int)⟩
    if st.minh < -walkableClimb then RC_NULL_AREA
    else if st.asmax - st.asmin > walkableClimb then RC_NULL_AREA
    else s.area

/-- One column of the ledge pass: each span's area is replaced by its ledge
decision, with `top` = the successor's `smin` or `MAX_HEIGHT` (RecastFilter.cpp
lines 99-168). The C code writes each span's area as soon as it is decided,
but no decision in the pass ever reads an area other than the decided span's
own (neighbour columns contribute only `smin`/`smax`), so rewriting the
column in one step is exact. -/
def ledgeCol (walkableHeight walkableClimb : Int) (hf : rcHeightfield) (x y : Nat) :
    List rcSpan → List rcSpan
  | [] => []
  | s :: rest =>
    let top : Int := match rest with
      | [] => MAX_HEIGHT
      | n :: _ => n.smin
    { s with area := ledgeSpanArea walkableHeight walkableClimb hf x y s top } ::
      ledgeCol walkableHeight walkableClimb hf x y rest

/-- Row-major enumeration of the grid cells, matching the C loops
`for y { for x { ... } }`. -/
def allCells (w h : Nat) : List (Nat × Nat) :=
  (List.range h).flatMap (fun y => (List.range w).map (fun x => (x, y)))

/-- Sequential in-place execution of the ledge pass over an explicit list of
cells: each visited cell's column is rewritten using the current (partially
updated) heightfield, as the C code's in-place mutation does. -/
def ledgeSeq (walkableHeight walkableClimb : Int) : List (Nat × Nat) → rcHeightfield → rcHeightfield
  | [], hf => hf
  | (x, y) :: cells, hf =>
    let spans' := hf.spans.set (x + y * hf.width)
      (ledgeCol walkableHeight walkableClimb hf x y (hf.col x y))
    ledgeSeq walkableHeight walkableClimb cells { hf with spans := spans' }

/-- `rcFilterLedgeSpans` (RecastFilter.cpp lines 83-171): sequential row-major
in-place execution. -/
def rcFilterLedgeSpans (walkableHeight walkableClimb : Int) (hf : rcHeightfield) : rcHeightfield :=
  ledgeSeq walkableHeight walkableClimb (allCells hf.width hf.height) hf

/-- Snapshot semantics of the ledge pass: every in-grid column is rewritten
using decisions computed entirely from the pre-pass heightfield. -/
def ledgeSnap (walkableHeight walkableClimb : Int) (hf : rcHeightfield) : rcHeightfield :=
  let spans' := mapCols
    (fun i c => if i < hf.width * hf.height
      then ledgeCol walkableHeight walkableClimb hf (i % hf.width) (i / hf.width) c
      else c) 0 hf.spans
  { hf with spans := spans' }

/-- Geometry of a column: the `(smin, smax)` bounds of its spans in order. -/
def colGeom (c : List rcSpan) : List (Nat × Nat) :=
  c.map (fun s => (s.smin, s.smax))

/-- Structural content of a heightfield: dimensions plus every column's span
geometry (count, order and bounds) — everything except the area bytes. -/
def hfGeom (hf : rcHeightfield) : Nat × Nat × List (List (Nat × Nat)) :=
  (hf.width, hf.height, hf.spans.map colGeom)

example : rcGetDirOffsetX 0 = -1 := by decide
example : allCells 2 2 = [(0,0),(1,0),(0,1),(1,1)] := by decide

/-- Fixture for C1: 2×1 grid; the walkable span at cell `(0,0)` has
`bot = 0`, and the neighbour column `(1,0)` holds one span `[2,3]`. With
`walkableHeight = 1`, `walkableClimb = 3` the virtual neighbour candidate
(`nbot = -3`) has sufficient overlap and `|nbot - bot| = 3 ≤ 3`. -/
def hfC1 : rcHeightfield := ⟨2, 1, [[⟨0, 0, 1⟩], [⟨2, 3, 0⟩]]⟩

/-- Fixture for C2: 3×3 grid; the walkable span at the centre `(1,1)` has
`bot = 0` and its four neighbour columns offer candidate surfaces at heights
`0, 0, 0, 5` relative to `bot`, each with sufficient overlap for
`walkableHeight = 1`. -/
def hfC2 : rcHeightfield :=
  ⟨3, 3, [[], [⟨0, 0, 0⟩], [],
          [⟨0, 0, 0⟩], [⟨0, 0, 1⟩], [⟨0, 0, 0⟩],
          [], [⟨0, 5, 0⟩], []]⟩

/-- Fixture for C3: 1×1 grid (all four neighbour directions out of the grid)
holding a single walkable span with `bot = 0`. -/
def hfC3 : rcHeightfield := ⟨1, 1, [[⟨0, 0, 1⟩]]⟩

/-- Fixture for C5: one column `[walkable, top 0][non-walkable, top 1]
[non-walkable, top 2]`. -/
def hfC5 : rcHeightfield := ⟨1, 1, [[⟨0, 0, 1⟩, ⟨1, 1, 0⟩, ⟨2, 2, 0⟩]]⟩

/-- Fixture for C8: one column `[walkable span [0,0]][non-walkable span
[1,1]]`; with `walkableHeight = 1`, `walkableClimb = 1` the two pass orders
disagree on the upper span. -/
def hfC8 : rcHeightfield := ⟨1, 1, [[⟨0, 0, 1⟩, ⟨1, 1, 0⟩]]⟩

-- concrete evaluations documenting the fixtures
example : rcFilterLedgeSpans 1 3 hfC1 = hfC1 := by decide
example : ledgeDirs 1 3 hfC1 0 0 0 MAX_HEIGHT [0,1,2,3] ⟨MAX_HEIGHT, 0, 0⟩ = ⟨-3, 0, 3⟩ := by decide
example : rcFilterLedgeSpans 1 3 hfC2 = hfC2 := by decide
example : ledgeDirs 1 3 hfC2 1 1 0 MAX_HEIGHT [0,1,2,3] ⟨MAX_HEIGHT, 0, 0⟩ = ⟨0, 0, 0⟩ := by decide
example : rcFilterLedgeSpans 1 2 hfC3 = hfC3 := by decide
example : rcFilterLowHangingWalkableObstacles 2 hfC5 =
  ⟨1, 1, [[⟨0, 0, 1⟩, ⟨1, 1, 1⟩, ⟨2, 2, 0⟩]]⟩ := by decide
example : rcFilterLedgeSpans 1 1 (rcFilterLowHangingWalkableObstacles 1 hfC8) =
  ⟨1, 1, [[⟨0, 0, 1⟩, ⟨1, 1, 0⟩]]⟩ := by decide
example : rcFilterLowHangingWalkableObstacles 1 (rcFilterLedgeSpans 1 1 hfC8) =
  ⟨1, 1, [[⟨0, 0, 1⟩, ⟨1, 1, 1⟩]]⟩ := by decide
example : rcFilterWalkableLowHeightSpans 1 hfC8 = ⟨1, 1, [[⟨0, 0, 0⟩, ⟨1, 1, 0⟩]]⟩ := by decide

/-- Written from the claim's words (C1), not from the source: the candidate
surfaces offered by one in-grid neighbour column, in the claim's order —
"first the virtual span with nbot = -walkableClimb and ntop = the first real
neighbor span's smin or unbounded, then each real neighbor span with nbot =
its smax and ntop = its successor's smin or unbounded". Each candidate is
`(isVirtual, nbot, ntop)`. Real-span part. -/
def specRealCands : List rcSpan → List (Bool × Int × Int)
  | [] => []
  | ns :: rest =>
    (false, (ns.smax : Int),
      match rest with
      | [] => MAX_HEIGHT
      | n2 :: _ => (n2.smin : Int)) :: specRealCands rest

/-- Written from the claim's words (C1): full candidate list of an in-grid
neighbour column, the virtual span first. -/
def specCandList (walkableClimb : Int) (ncol : List rcSpan) : List (Bool × Int × Int) :=
  (true, -walkableClimb,
    match ncol with
    | [] => MAX_HEIGHT
    | ns :: _ => (ns.smin : Int)) :: specRealCands ncol

/-- Written from the claim's words (C1): folding one candidate into the scan
state. A candidate whose overlap `min(top, ntop) - max(bot, nbot)` is
`≤ walkableHeight` is excluded; otherwise `nbot - bot` enters `minh`, and if
the candidate may update the accessible extremes (`virtualAccessible = true`
makes the virtual span eligible, as the claim states; `false` restricts the
update to real spans) and `|nbot - bot| ≤ walkableClimb`, `nbot` enters
`asmin`/`asmax`. -/
def specFoldCand (virtualAccessible : Bool) (walkableHeight walkableClimb bot top : Int)
    (st : LedgeState) (cand : Bool × Int × Int) : LedgeState :=
  let nbot : Int := cand.2.1
  let ntop : Int := cand.2.2
  if min top ntop - max bot nbot > walkableHeight then
    let st1 : LedgeState := { st with minh := min st.minh (nbot - bot) }
    if (cand.1 = false ∨ virtualAccessible = true) ∧ |nbot - bot| ≤ walkableClimb then
      { st1 with asmin := min st1.asmin nbot, asmax := max st1.asmax nbot }
    else st1
  else st

/-- Written from the claim's words (C1): per-direction step — an out-of-grid
direction contributes `(-walkableClimb) - bot` to `minh` only; an in-grid
direction folds its candidate list. -/
def specDirStep (virtualAccessible : Bool) (walkableHeight walkableClimb : Int)
    (hf : rcHeightfield) (x y : Nat) (bot top : Int)
    (st : LedgeState) (dir : Nat) : LedgeState :=
  let dx : Int := (x : Int) + rcGetDirOffsetX dir
  let dy : Int := (y : Int) + rcGetDirOffsetY dir
  if dx < 0 ∨ dy < 0 ∨ dx ≥ (hf.width : Int) ∨ dy ≥ (hf.height : Int) then
    { st with minh := min st.minh (-walkableClimb - bot) }
  else
    (specCandList walkableClimb (hf.col dx.toNat dy.toNat)).foldl
      (specFoldCand virtualAccessible walkableHeight walkableClimb bot top) st

/-- Written from the claim's words (C1): the whole 4-direction scan, with
`minh` starting unbounded and `asmin`/`asmax` initialized to `bot`. -/
def specLedgeScan (virtualAccessible : Bool) (walkableHeight walkableClimb : Int)
    (hf : rcHeightfield) (x y : Nat) (bot top : Int) : LedgeState :=
  [0, 1, 2, 3].foldl (specDirStep virtualAccessible walkableHeight walkableClimb hf x y bot top)
    ⟨MAX_HEIGHT, bot, bot⟩

/-- Written from the claim's words (C1): the claim's marking condition,
`minh < -walkableClimb` or `asmax - asmin > walkableClimb`. -/
def specLedgeMarked (virtualAccessible : Bool) (walkableHeight walkableClimb : Int)
    (hf : rcHeightfield) (x y : Nat) (bot top : Int) : Bool :=
  let st := specLedgeScan virtualAccessible walkableHeight walkableClimb hf x y bot top
  decide (st.minh < -walkableClimb) || decide (st.asmax - st.asmin > walkableClimb)

-- concrete evaluations documenting the fixtures
example : specLedgeScan true 1 3 hfC1 0 0 0 MAX_HEIGHT = ⟨-3, -3, 3⟩ := by decide
example : specLedgeMarked true 1 3 hfC1 0 0 0 MAX_HEIGHT = true := by decide
example : specLedgeScan false 1 3 hfC1 0 0 0 MAX_HEIGHT = ⟨-3, 0, 3⟩ := by decide
example : specLedgeMarked false 1 3 hfC1 0 0 0 MAX_HEIGHT = false := by decide

/-! List helper lemmas. -/

theorem getD_set_self (l : List (List rcSpan)) (n : Nat) (a : List rcSpan) :
    (l.set n a).getD n [] = if n < l.length then a else l.getD n [] := by
  induction l generalizing n with
  | nil => simp
  | cons c rest ih =>
    cases n with
    | zero => simp
    | succ m => simpa using ih m

theorem getD_set_ne (l : List (List rcSpan)) (n m : Nat) (a : List rcSpan)
    (h : n ≠ m) : (l.set n a).getD m [] = l.getD m [] := by
  induction l generalizing n m with
  | nil => simp
  | cons c rest ih =>
    cases n with
    | zero =>
      cases m with
      | zero => exact absurd rfl h
      | succ k => simp
    | succ j =>
      cases m with
      | zero => simp
      | succ k => simpa using ih j k (by omega)

theorem getD_eq_default (l : List (List rcSpan)) (n : Nat) (h : l.length ≤ n) :
    l.getD n [] = [] := by
  induction l generalizing n with
  | nil => simp
  | cons c rest ih =>
    cases n with
    | zero => simp at h
    | succ m => simpa using ih m (by simpa using h)

theorem list_ext_getD (l1 l2 : List (List rcSpan)) (hlen : l1.length = l2.length)
    (h : ∀ j, l1.getD j [] = l2.getD j []) : l1 = l2 := by
  induction l1 generalizing l2 with
  | nil => cases l2 with
    | nil => rfl
    | cons b m => simp at hlen
  | cons a m1 ih =>
    cases l2 with
    | nil => simp at hlen
    | cons b m2 =>
      have h0 := h 0
      simp only [List.getD_cons_zero] at h0
      subst h0
      have : m1 = m2 := ih m2 (by simpa using hlen) (fun j => by simpa using h (j + 1))
      rw [this]

theorem mapCols_length (f : Nat → List rcSpan → List rcSpan) (i : Nat)
    (l : List (List rcSpan)) : (mapCols f i l).length = l.length := by
  induction l generalizing i with
  | nil => rfl
  | cons c rest ih => simpa [mapCols] using ih (i + 1)

theorem mapCols_getD (f : Nat → List rcSpan → List rcSpan) (i j : Nat)
    (l : List (List rcSpan)) :
    (mapCols f i l).getD j [] =
      if j < l.length then f (i + j) (l.getD j []) else [] := by
  induction l generalizing i j with
  | nil => simp [mapCols]
  | cons c rest ih =>
    cases j with
    | zero => simp [mapCols]
    | succ m =>
      have := ih (i + 1) m
      simp only [mapCols, List.getD_cons_succ, List.length_cons]
      rw [this]
      have harith : i + 1 + m = i + (m + 1) := by omega
      by_cases hm : m < rest.length
      · simp [hm, harith]
      · simp [hm]

/-! Geometry preservation: every column transform keeps `smin`/`smax`,
count and order, touching only the area bytes. -/

theorem colGeom_nil : colGeom [] = [] := rfl

theorem colGeom_cons (s : rcSpan) (c : List rcSpan) :
    colGeom (s :: c) = (s.smin, s.smax) :: colGeom c := rfl

theorem colGeom_lowHangCol (walkableClimb : Int) (pw : Bool) (pa ps : Nat)
    (c : List rcSpan) : colGeom (lowHangCol walkableClimb pw pa ps c) = colGeom c := by
  induction c generalizing pw pa ps with
  | nil => rfl
  | cons s rest ih => simp [lowHangCol, colGeom_cons, ih]

theorem colGeom_lowHeightCol (walkableHeight : Int) (c : List rcSpan) :
    colGeom (lowHeightCol walkableHeight c) = colGeom c := by
  induction c with
  | nil => rfl
  | cons s rest ih => simp [lowHeightCol, colGeom_cons, ih]

theorem colGeom_ledgeCol (walkableHeight walkableClimb : Int) (hf : rcHeightfield)
    (x y : Nat) (c : List rcSpan) :
    colGeom (ledgeCol walkableHeight walkableClimb hf x y c) = colGeom c := by
  induction c with
  | nil => rfl
  | cons s rest ih => simp [ledgeCol, colGeom_cons, ih]

theorem length_lowHangCol (walkableClimb : Int) (pw : Bool) (pa ps : Nat)
    (c : List rcSpan) : (lowHangCol walkableClimb pw pa ps c).length = c.length := by
  induction c generalizing pw pa ps with
  | nil => rfl
  | cons s rest ih => simp [lowHangCol, ih]

theorem length_lowHeightCol (walkableHeight : Int) (c : List rcSpan) :
    (lowHeightCol walkableHeight c).length = c.length := by
  induction c with
  | nil => rfl
  | cons s rest ih => simp [lowHeightCol, ih]

theorem length_ledgeCol (walkableHeight walkableClimb : Int) (hf : rcHeightfield)
    (x y : Nat) (c : List rcSpan) :
    (ledgeCol walkableHeight walkableClimb hf x y c).length = c.length := by
  induction c with
  | nil => rfl
  | cons s rest ih => simp [ledgeCol, ih]

/-! The ledge scan reads neighbour columns only through their `smin`/`smax`
geometry. The mirrors below make this explicit: the scan factors through
`colGeom`, which yields the congruence facts the snapshot argument needs. -/

/-- Geometry-level mirror of `ledgeNeighborLoop`. -/
def loopG (walkableHeight walkableClimb bot top : Int) :
    List (Nat × Nat) → LedgeState → LedgeState
  | [], st => st
  | g :: rest, st =>
    let nbot : Int := g.2
    let ntop : Int := match rest with
      | [] => MAX_HEIGHT
      | g2 :: _ => (g2.1 : Int)
    let st' : LedgeState :=
      if min top ntop - max bot nbot > walkableHeight then
        let st1 : LedgeState := { st with minh := min st.minh (nbot - bot) }
        if |nbot - bot| ≤ walkableClimb then
          { st1 with asmin := min st1.asmin nbot, asmax := max st1.asmax nbot }
        else st1
      else st
    loopG walkableHeight walkableClimb bot top rest st'

/-- Geometry-level mirror of `ledgeDirCol`. -/
def dirColG (walkableHeight walkableClimb bot top : Int)
    (ncolG : List (Nat × Nat)) (st : LedgeState) : LedgeState :=
  let nbot : Int := -walkableClimb
  let ntop : Int := match ncolG with
    | [] => MAX_HEIGHT
    | g :: _ => (g.1 : Int)
  let st' : LedgeState :=
    if min top ntop - max bot nbot > walkableHeight then
      { st with minh := min st.minh (nbot - bot) }
    else st
  loopG walkableHeight walkableClimb bot top ncolG st'

/-- Geometry-level mirror of `ledgeDirs`. -/
def dirsG (walkableHeight walkableClimb : Int) (w h : Nat)
    (g : List (List (Nat × Nat))) (x y : Nat) (bot top : Int) :
    List Nat → LedgeState → LedgeState
  | [], st => st
  | dir :: dirs, st =>
    let dx : Int := (x : Int) + rcGetDirOffsetX dir
    let dy : Int := (y : Int) + rcGetDirOffsetY dir
    let st' : LedgeState :=
      if dx < 0 ∨ dy < 0 ∨ dx ≥ (w : Int) ∨ dy ≥ (h : Int) then
        { st with minh := min st.minh (-walkableClimb - bot) }
      else
        dirColG walkableHeight walkableClimb bot top
          (g.getD (dx.toNat + dy.toNat * w) []) st
    dirsG walkableHeight walkableClimb w h g x y bot top dirs st'

theorem ledgeNeighborLoop_eq_loopG (walkableHeight walkableClimb bot top : Int)
    (n : List rcSpan) : ∀ st, ledgeNeighborLoop walkableHeight walkableClimb bot top n st =
      loopG walkableHeight walkableClimb bot top (colGeom n) st := by
  induction n with
  | nil => intro st; rfl
  | cons a m ih =>
    intro st
    rw [colGeom_cons]
    simp only [ledgeNeighborLoop, loopG]
    rw [ih]
    congr 1
    cases m with
    | nil => rfl
    | cons b k => rw [colGeom_cons]

theorem ledgeDirCol_eq_dirColG (walkableHeight walkableClimb bot top : Int)
    (n : List rcSpan) (st : LedgeState) :
    ledgeDirCol walkableHeight walkableClimb bot top n st =
      dirColG walkableHeight walkableClimb bot top (colGeom n) st := by
  simp only [ledgeDirCol, dirColG]
  rw [ledgeNeighborLoop_eq_loopG]
  congr 1
  cases n with
  | nil => rfl
  | cons a m => rw [colGeom_cons]

theorem colGeom_getD (l : List (List rcSpan)) (j : Nat) :
    colGeom (l.getD j []) = (l.map colGeom).getD j [] := by
  induction l generalizing j with
  | nil => simp [colGeom]
  | cons c rest ih =>
    cases j with
    | zero => simp
    | succ m => simpa using ih m

theorem ledgeDirs_eq_dirsG (walkableHeight walkableClimb : Int) (hf : rcHeightfield)
    (x y : Nat) (bot top : Int) (dirs : List Nat) : ∀ st,
    ledgeDirs walkableHeight walkableClimb hf x y bot top dirs st =
      dirsG walkableHeight walkableClimb hf.width hf.height (hf.spans.map colGeom)
        x y bot top dirs st := by
  induction dirs with
  | nil => intro st; rfl
  | cons dir rest ih =>
    intro st
    simp only [ledgeDirs, dirsG]
    rw [ih]
    congr 1
    by_cases hob : ((x : Int) + rcGetDirOffsetX dir < 0 ∨ (y : Int) + rcGetDirOffsetY dir < 0 ∨
        (x : Int) + rcGetDirOffsetX dir ≥ (hf.width : Int) ∨
        (y : Int) + rcGetDirOffsetY dir ≥ (hf.height : Int))
    · simp only [if_pos hob]
    · simp only [if_neg hob]
      rw [ledgeDirCol_eq_dirColG, rcHeightfield.col, colGeom_getD]

theorem ledgeSpanArea_congr (walkableHeight walkableClimb : Int) (hf1 hf2 : rcHeightfield)
    (hw : hf1.width = hf2.width) (hh : hf1.height = hf2.height)
    (hg : hf1.spans.map colGeom = hf2.spans.map colGeom)
    (x y : Nat) (s : rcSpan) (top : Int) :
    ledgeSpanArea walkableHeight walkableClimb hf1 x y s top =
      ledgeSpanArea walkableHeight walkableClimb hf2 x y s top := by
  simp only [ledgeSpanArea]
  rw [ledgeDirs_eq_dirsG, ledgeDirs_eq_dirsG, hw, hh, hg]

theorem ledgeCol_congr (walkableHeight walkableClimb : Int) (hf1 hf2 : rcHeightfield)
    (hw : hf1.width = hf2.width) (hh : hf1.height = hf2.height)
    (hg : hf1.spans.map colGeom = hf2.spans.map colGeom)
    (x y : Nat) (c : List rcSpan) :
    ledgeCol walkableHeight walkableClimb hf1 x y c =
      ledgeCol walkableHeight walkableClimb hf2 x y c := by
  induction c with
  | nil => rfl
  | cons s rest ih =>
    simp only [ledgeCol]
    rw [ledgeSpanArea_congr walkableHeight walkableClimb hf1 hf2 hw hh hg, ih]

/-- The `top` value the per-span loops compute at index `i` of a column: the
successor span's `smin`, or `MAX_HEIGHT` for the topmost span. -/
def topAt (c : List rcSpan) (i : Nat) : Int :=
  if i + 1 < c.length then ((c.getD (i + 1) defSpan).smin : Int) else MAX_HEIGHT

theorem ledgeCol_getD (walkableHeight walkableClimb : Int) (hf : rcHeightfield)
    (x y : Nat) (c : List rcSpan) : ∀ i, i < c.length →
    (ledgeCol walkableHeight walkableClimb hf x y c).getD i defSpan =
      { c.getD i defSpan with
        area := ledgeSpanArea walkableHeight walkableClimb hf x y
          (c.getD i defSpan) (topAt c i) } := by
  induction c with
  | nil => intro i hi; simp at hi
  | cons s rest ih =>
    intro i hi
    cases i with
    | zero =>
      simp only [ledgeCol, List.getD_cons_zero, topAt]
      cases rest with
      | nil => simp
      | cons n k => simp
    | succ m =>
      have hm : m < rest.length := by simpa using hi
      simp only [ledgeCol, List.getD_cons_succ]
      rw [ih m hm]
      have htop : topAt rest m = topAt (s :: rest) (m + 1) := by
        simp only [topAt, List.length_cons, List.getD_cons_succ]
        have h2 : (m + 1 + 1 < rest.length + 1) = (m + 1 < rest.length) := by
          simp only [eq_iff_iff]
          omega
        simp only [h2]
      rw [htop]

theorem set_getD_eq_self {α : Type} (l : List α) (n : Nat) (d : α) :
    l.set n (l.getD n d) = l := by
  induction l generalizing n with
  | nil => simp
  | cons a m ih =>
    cases n with
    | zero => simp
    | succ k => simpa using ih k

theorem hf_ext (a b : rcHeightfield) (h1 : a.width = b.width)
    (h2 : a.height = b.height) (h3 : a.spans = b.spans) : a = b := by
  cases a; cases b; simp_all


/-- Flat index of a cell. -/
def cellIdx (w : Nat) (c : Nat × Nat) : Nat := c.1 + c.2 * w

/-- Snapshot column at flat index `i`: the ledge pass's rewrite of that
column computed entirely from the pre-pass heightfield. -/
def snapColAt (walkableHeight walkableClimb : Int) (hf : rcHeightfield) (i : Nat) :
    List rcSpan :=
  ledgeCol walkableHeight walkableClimb hf (i % hf.width) (i / hf.width)
    (hf.spans.getD i [])

theorem cellIdx_mod (w : Nat) (x y : Nat) (hx : x < w) : (x + y * w) % w = x := by
  rw [Nat.add_mul_mod_self_right, Nat.mod_eq_of_lt hx]

theorem cellIdx_div (w : Nat) (x y : Nat) (hx : x < w) : (x + y * w) / w = y := by
  rw [Nat.add_mul_div_right _ _ (by omega : 0 < w), Nat.div_eq_of_lt hx]
  omega

theorem ledgeSeq_cons (walkableHeight walkableClimb : Int) (x y : Nat)
    (rest : List (Nat × Nat)) (st : rcHeightfield) :
    ledgeSeq walkableHeight walkableClimb ((x, y) :: rest) st =
      ledgeSeq walkableHeight walkableClimb rest { st with spans := st.spans.set (x + y * st.width) (ledgeCol walkableHeight walkableClimb st x y (st.col x y)) } := rfl

/-- Invariant of the in-place sequential ledge pass: as long as the cells
still to be visited are untouched, in bounds, and pairwise distinct, visiting
them turns exactly their columns into the snapshot columns of the original
heightfield, and touches nothing else. This holds because the scan reads the
current state only through its geometry, which the pass preserves. -/
theorem ledgeSeq_invariant (walkableHeight walkableClimb : Int) (hf : rcHeightfield)
    (order : List (Nat × Nat)) : ∀ (st : rcHeightfield),
    st.width = hf.width → st.height = hf.height →
    st.spans.length = hf.spans.length →
    st.spans.map colGeom = hf.spans.map colGeom →
    (∀ c ∈ order, st.spans.getD (cellIdx hf.width c) [] =
      hf.spans.getD (cellIdx hf.width c) []) →
    (∀ c ∈ order, c.1 < hf.width ∧ c.2 < hf.height) →
    (order.map (cellIdx hf.width)).Nodup →
    (ledgeSeq walkableHeight walkableClimb order st).width = hf.width ∧
    (ledgeSeq walkableHeight walkableClimb order st).height = hf.height ∧
    (ledgeSeq walkableHeight walkableClimb order st).spans.length = hf.spans.length ∧
    ∀ j, (ledgeSeq walkableHeight walkableClimb order st).spans.getD j [] =
      if j ∈ order.map (cellIdx hf.width) then snapColAt walkableHeight walkableClimb hf j
      else st.spans.getD j [] := by
  induction order with
  | nil =>
    intro st h1 h2 h3 _ _ _ _
    exact ⟨h1, h2, h3, fun j => by simp [ledgeSeq]⟩
  | cons c0 rest ih =>
    obtain ⟨x, y⟩ := c0
    intro st h1 h2 h3 h4 hfresh hbound hnodup
    have hxw : x < hf.width := (hbound (x, y) (List.mem_cons_self _ _)).1
    have hmem0 : (x, y) ∈ (x, y) :: rest := List.mem_cons_self _ _
    have hidx0 : cellIdx hf.width (x, y) = x + y * hf.width := rfl
    have hcole : st.col x y = hf.spans.getD (x + y * hf.width) [] := by
      rw [rcHeightfield.col, h1]
      exact hfresh (x, y) hmem0
    have hnew : ledgeCol walkableHeight walkableClimb st x y (st.col x y) =
        snapColAt walkableHeight walkableClimb hf (x + y * hf.width) := by
      rw [hcole, ledgeCol_congr walkableHeight walkableClimb st hf h1 h2 h4]
      rw [snapColAt, cellIdx_mod hf.width x y hxw, cellIdx_div hf.width x y hxw]
    rw [ledgeSeq_cons]
    set st2 : rcHeightfield := { st with spans := st.spans.set (x + y * st.width) (ledgeCol walkableHeight walkableClimb st x y (st.col x y)) } with hst2
    have hst2spans : st2.spans = st.spans.set (x + y * st.width) (ledgeCol walkableHeight walkableClimb st x y (st.col x y)) := rfl
    have hsetw : x + y * st.width = x + y * hf.width := by rw [h1]
    have hin : cellIdx hf.width (x, y) ∉ rest.map (cellIdx hf.width) := by
      have hh := hnodup
      simp only [List.map_cons, List.nodup_cons] at hh
      exact hh.1
    have h1' : st2.width = hf.width := h1
    have h2' : st2.height = hf.height := h2
    have h3' : st2.spans.length = hf.spans.length := by
      rw [hst2spans, List.length_set]; exact h3
    have h4' : st2.spans.map colGeom = hf.spans.map colGeom := by
      rw [hst2spans, List.map_set, colGeom_ledgeCol, hcole, hsetw, colGeom_getD, ← h4]
      exact set_getD_eq_self _ _ _
    have hfresh' : ∀ c ∈ rest, st2.spans.getD (cellIdx hf.width c) [] =
        hf.spans.getD (cellIdx hf.width c) [] := by
      intro c hc
      have hne : x + y * st.width ≠ cellIdx hf.width c := by
        rw [hsetw, ← hidx0]
        intro heq
        exact hin (heq ▸ List.mem_map_of_mem (cellIdx hf.width) hc)
      rw [hst2spans, getD_set_ne _ _ _ _ hne]
      exact hfresh c (List.mem_cons_of_mem _ hc)
    have hbound' : ∀ c ∈ rest, c.1 < hf.width ∧ c.2 < hf.height :=
      fun c hc => hbound c (List.mem_cons_of_mem _ hc)
    have hnodup' : (rest.map (cellIdx hf.width)).Nodup := by
      have hh := hnodup
      simp only [List.map_cons, List.nodup_cons] at hh
      exact hh.2
    obtain ⟨g1, g2, g3, g4⟩ := ih st2 h1' h2' h3' h4' hfresh' hbound' hnodup'
    refine ⟨g1, g2, g3, fun j => ?_⟩
    rw [g4 j]
    by_cases hjr : j ∈ rest.map (cellIdx hf.width)
    · rw [if_pos hjr]
      have hj : j ∈ ((x, y) :: rest).map (cellIdx hf.width) := by
        rw [List.map_cons]
        exact List.mem_cons_of_mem _ hjr
      rw [if_pos hj]
    · rw [if_neg hjr]
      by_cases hj0 : j = cellIdx hf.width (x, y)
      · subst hj0
        have hj : cellIdx hf.width (x, y) ∈ ((x, y) :: rest).map (cellIdx hf.width) := by
          rw [List.map_cons]
          exact List.mem_cons_self _ _
        rw [if_pos hj, hst2spans, hsetw, hidx0, getD_set_self]
        by_cases hlt : x + y * hf.width < st.spans.length
        · rw [if_pos hlt, hnew]
        · rw [if_neg hlt]
          have hge : hf.spans.length ≤ x + y * hf.width := by omega
          have h5 : st.spans.getD (x + y * hf.width) [] =
              hf.spans.getD (x + y * hf.width) [] := hfresh (x, y) hmem0
          rw [h5, getD_eq_default _ _ hge, snapColAt, getD_eq_default _ _ hge]
          rfl
      · have hj : j ∉ ((x, y) :: rest).map (cellIdx hf.width) := by
          rw [List.map_cons]
          intro hmem
          rcases List.mem_cons.mp hmem with h | h
          · exact hj0 h
          · exact hjr h
        rw [if_neg hj, hst2spans]
        have hne : x + y * st.width ≠ j := by
          rw [hsetw, ← hidx0]; exact fun h => hj0 h.symm
        exact getD_set_ne _ _ _ _ hne

theorem allCells_zero (w : Nat) : allCells w 0 = [] := rfl

theorem allCells_succ (w h : Nat) :
    allCells w (h + 1) = allCells w h ++ (List.range w).map (fun x => (x, h)) := by
  simp only [allCells, List.range_succ, List.flatMap_append, List.flatMap_cons,
    List.flatMap_nil, List.append_nil]

theorem allCells_map_cellIdx (w h : Nat) :
    (allCells w h).map (cellIdx w) = List.range (w * h) := by
  induction h with
  | zero => simp [allCells_zero]
  | succ k ih =>
    rw [allCells_succ, List.map_append, ih, List.map_map]
    have h1 : w * (k + 1) = w * k + w := by ring
    rw [h1, List.range_add]
    congr 1
    apply List.map_congr_left
    intro a _
    simp only [Function.comp_apply, cellIdx]
    rw [Nat.mul_comm k w]
    omega

theorem mem_allCells (w h : Nat) (c : Nat × Nat) :
    c ∈ allCells w h ↔ c.1 < w ∧ c.2 < h := by
  obtain ⟨x, y⟩ := c
  simp only [allCells, List.mem_flatMap, List.mem_map, List.mem_range]
  constructor
  · rintro ⟨a, ha, b, hb, heq⟩
    injection heq with h1 h2
    subst h1
    subst h2
    exact ⟨hb, ha⟩
  · rintro ⟨h1, h2⟩
    exact ⟨y, h2, x, h1, rfl⟩

theorem nodup_allCells_map (w h : Nat) : ((allCells w h).map (cellIdx w)).Nodup := by
  rw [allCells_map_cellIdx]
  exact List.nodup_range _

/-- Core snapshot theorem: executing the ledge pass sequentially in place, in
any visiting order that covers each grid cell exactly once, produces the
snapshot result in which every span's decision is computed from the pre-pass
heightfield. -/
theorem ledgeSeq_perm_eq_snap (walkableHeight walkableClimb : Int) (hf : rcHeightfield)
    (order : List (Nat × Nat))
    (hperm : order.Perm (allCells hf.width hf.height)) :
    ledgeSeq walkableHeight walkableClimb order hf =
      ledgeSnap walkableHeight walkableClimb hf := by
  have hbound : ∀ c ∈ order, c.1 < hf.width ∧ c.2 < hf.height := by
    intro c hc
    exact (mem_allCells hf.width hf.height c).mp (hperm.mem_iff.mp hc)
  have hnodup : (order.map (cellIdx hf.width)).Nodup :=
    ((hperm.map (cellIdx hf.width)).nodup_iff).mpr (nodup_allCells_map _ _)
  obtain ⟨g1, g2, g3, g4⟩ := ledgeSeq_invariant walkableHeight walkableClimb hf order hf
    rfl rfl rfl rfl (fun c _ => rfl) hbound hnodup
  have hmemiff : ∀ j, j ∈ order.map (cellIdx hf.width) ↔ j < hf.width * hf.height := by
    intro j
    rw [(hperm.map (cellIdx hf.width)).mem_iff, allCells_map_cellIdx, List.mem_range]
  apply hf_ext
  · rw [g1]; rfl
  · rw [g2]; rfl
  · apply list_ext_getD
    · rw [g3, ledgeSnap]
      simp only [mapCols_length]
    · intro j
      rw [g4 j, ledgeSnap]
      simp only []
      rw [mapCols_getD]
      simp only [Nat.zero_add]
      by_cases hwh : j < hf.width * hf.height
      · rw [if_pos ((hmemiff j).mpr hwh)]
        by_cases hlen : j < hf.spans.length
        · rw [if_pos hlen, if_pos hwh]
          rfl
        · rw [if_neg hlen]
          rw [snapColAt, getD_eq_default _ _ (by omega)]
          rfl
      · rw [if_neg (fun hmem => hwh ((hmemiff j).mp hmem))]
        by_cases hlen : j < hf.spans.length
        · rw [if_pos hlen, if_neg hwh]
        · rw [if_neg hlen, getD_eq_default _ _ (by omega)]

/-- The row-major pass itself is the snapshot pass. -/
theorem rcFilterLedgeSpans_eq_snap (walkableHeight walkableClimb : Int)
    (hf : rcHeightfield) :
    rcFilterLedgeSpans walkableHeight walkableClimb hf =
      ledgeSnap walkableHeight walkableClimb hf :=
  ledgeSeq_perm_eq_snap walkableHeight walkableClimb hf _ (List.Perm.refl _)

theorem idx_lt_grid (w h x y : Nat) (hx : x < w) (hy : y < h) : x + y * w < w * h := by
  have h1 : y * w + w ≤ h * w := by
    have := Nat.succ_le_of_lt hy
    calc y * w + w = (y + 1) * w := by ring
    _ ≤ h * w := Nat.mul_le_mul_right w this
  have h2 : h * w = w * h := Nat.mul_comm h w
  omega

/-- Reading one column of the ledge pass's result: for an in-grid cell it is
the snapshot rewrite of the original column. -/
theorem rcFilterLedgeSpans_col (walkableHeight walkableClimb : Int) (hf : rcHeightfield)
    (x y : Nat) (hx : x < hf.width) (hy : y < hf.height) :
    (rcFilterLedgeSpans walkableHeight walkableClimb hf).col x y =
      ledgeCol walkableHeight walkableClimb hf x y (hf.col x y) := by
  rw [rcFilterLedgeSpans_eq_snap]
  have hw : (ledgeSnap walkableHeight walkableClimb hf).width = hf.width := rfl
  rw [rcHeightfield.col, hw, ledgeSnap]
  simp only []
  rw [mapCols_getD]
  simp only [Nat.zero_add]
  by_cases hlen : x + y * hf.width < hf.spans.length
  · rw [if_pos hlen, if_pos (idx_lt_grid _ _ _ _ hx hy)]
    rw [cellIdx_mod hf.width x y hx, cellIdx_div hf.width x y hx]
    rfl
  · rw [if_neg hlen, rcHeightfield.col, getD_eq_default _ _ (by omega)]
    rfl

/-! Equivalence of the embedded scan with the candidate-list scan written
from the claim's words, with the virtual span excluded from the
accessible-extreme updates. -/

theorem ledgeNeighborLoop_eq_specFold (walkableHeight walkableClimb bot top : Int) :
    ∀ (n : List rcSpan) (st : LedgeState),
    ledgeNeighborLoop walkableHeight walkableClimb bot top n st =
      (specRealCands n).foldl (specFoldCand false walkableHeight walkableClimb bot top) st := by
  intro n
  induction n with
  | nil => intro st; rfl
  | cons a m ih =>
    intro st
    simp only [ledgeNeighborLoop, specRealCands, List.foldl_cons]
    rw [ih]
    congr 1
    simp [specFoldCand]

theorem ledgeDirCol_eq_specFold (walkableHeight walkableClimb bot top : Int)
    (n : List rcSpan) (st : LedgeState) :
    ledgeDirCol walkableHeight walkableClimb bot top n st =
      (specCandList walkableClimb n).foldl
        (specFoldCand false walkableHeight walkableClimb bot top) st := by
  simp only [ledgeDirCol, specCandList, List.foldl_cons]
  rw [ledgeNeighborLoop_eq_specFold]
  congr 1

theorem ledgeDirs_eq_specDirs (walkableHeight walkableClimb : Int) (hf : rcHeightfield)
    (x y : Nat) (bot top : Int) : ∀ (dirs : List Nat) (st : LedgeState),
    ledgeDirs walkableHeight walkableClimb hf x y bot top dirs st =
      dirs.foldl (specDirStep false walkableHeight walkableClimb hf x y bot top) st := by
  intro dirs
  induction dirs with
  | nil => intro st; rfl
  | cons dir rest ih =>
    intro st
    simp only [ledgeDirs, List.foldl_cons]
    rw [ih]
    congr 1
    simp only [specDirStep]
    by_cases hob : ((x : Int) + rcGetDirOffsetX dir < 0 ∨ (y : Int) + rcGetDirOffsetY dir < 0 ∨
        (x : Int) + rcGetDirOffsetX dir ≥ (hf.width : Int) ∨
        (y : Int) + rcGetDirOffsetY dir ≥ (hf.height : Int))
    · rw [if_pos hob, if_pos hob]
    · rw [if_neg hob, if_neg hob, ledgeDirCol_eq_specFold]

theorem ledgeScan_eq_spec (walkableHeight walkableClimb : Int) (hf : rcHeightfield)
    (x y : Nat) (bot top : Int) :
    ledgeDirs walkableHeight walkableClimb hf x y bot top [0, 1, 2, 3] ⟨MAX_HEIGHT, bot, bot⟩ =
      specLedgeScan false walkableHeight walkableClimb hf x y bot top := by
  rw [ledgeDirs_eq_specDirs]
  rfl

/-- The rescue condition of the low-hanging-obstacle pass, read off the
original column: span `i` is non-walkable, its predecessor is walkable, and
their top surfaces are within `walkableClimb`. -/
def rescueCond (walkableClimb : Int) (s pred : rcSpan) : Prop :=
  s.area = RC_NULL_AREA ∧ pred.area ≠ RC_NULL_AREA ∧
    |(s.smax : Int) - (pred.smax : Int)| ≤ walkableClimb

instance (walkableClimb : Int) (s pred : rcSpan) : Decidable (rescueCond walkableClimb s pred) := by
  unfold rescueCond
  infer_instance

/-- Per-index characterization of `lowHangCol`: with a virtual predecessor
`(pw, pa, ps)` standing for the carried state, the area of span `i` after the
pass is the predecessor's original area exactly when the rescue condition
holds, and is otherwise unchanged. -/
theorem lowHangCol_area (walkableClimb : Int) (c : List rcSpan) :
    ∀ (pw : Bool) (pa ps : Nat) (i : Nat), i < c.length →
    ((lowHangCol walkableClimb pw pa ps c).getD i defSpan).area =
      if i = 0 then
        (if (c.getD 0 defSpan).area = RC_NULL_AREA ∧ pw = true ∧
            |((c.getD 0 defSpan).smax : Int) - (ps : Int)| ≤ walkableClimb
          then pa else (c.getD 0 defSpan).area)
      else if rescueCond walkableClimb (c.getD i defSpan) (c.getD (i - 1) defSpan)
        then (c.getD (i - 1) defSpan).area
      else (c.getD i defSpan).area := by
  induction c with
  | nil => intro pw pa ps i hi; simp at hi
  | cons s rest ih =>
    intro pw pa ps i hi
    cases i with
    | zero =>
      by_cases hs : s.area = RC_NULL_AREA
      · simp [lowHangCol, hs]
      · simp [lowHangCol, hs]
    | succ m =>
      have hm : m < rest.length := by simpa using hi
      simp only [lowHangCol, List.getD_cons_succ]
      rw [ih _ _ _ m hm]
      cases m with
      | zero =>
        by_cases hs : s.area = RC_NULL_AREA
        · simp [rescueCond, hs]
        · simp [rescueCond, hs]
      | succ k =>
        simp [rescueCond]

/-- Per-index characterization of `lowHeightCol`: span `i` is nulled exactly
when its clearance `top - bot` is at most `walkableHeight`. -/
theorem lowHeightCol_area (walkableHeight : Int) (c : List rcSpan) :
    ∀ i, i < c.length →
    ((lowHeightCol walkableHeight c).getD i defSpan).area =
      if topAt c i - ((c.getD i defSpan).smax : Int) ≤ walkableHeight
        then RC_NULL_AREA else (c.getD i defSpan).area := by
  induction c with
  | nil => intro i hi; simp at hi
  | cons s rest ih =>
    intro i hi
    cases i with
    | zero =>
      simp only [lowHeightCol, List.getD_cons_zero, topAt]
      cases rest with
      | nil => simp
      | cons n k => simp
    | succ m =>
      have hm : m < rest.length := by simpa using hi
      simp only [lowHeightCol, List.getD_cons_succ]
      rw [ih m hm]
      have htop : topAt rest m = topAt (s :: rest) (m + 1) := by
        simp only [topAt, List.length_cons, List.getD_cons_succ]
        have h2 : (m + 1 + 1 < rest.length + 1) = (m + 1 < rest.length) := by
          simp only [eq_iff_iff]
          omega
        simp only [h2]
      rw [htop]

theorem lowHeightCol_topmatch (walkableHeight : Int) (rest : List rcSpan) :
    (match lowHeightCol walkableHeight rest with
      | [] => MAX_HEIGHT
      | n :: _ => (n.smin : Int)) =
    (match rest with
      | [] => MAX_HEIGHT
      | n :: _ => (n.smin : Int)) := by
  cases rest with
  | nil => rfl
  | cons n k => simp [lowHeightCol]

/-- The clearance pass is idempotent at column level: the second application
sees the same geometry, recomputes the same condition, and nulled spans stay
nulled. -/
theorem lowHeightCol_idem (walkableHeight : Int) (c : List rcSpan) :
    lowHeightCol walkableHeight (lowHeightCol walkableHeight c) =
      lowHeightCol walkableHeight c := by
  induction c with
  | nil => rfl
  | cons s rest ih =>
    simp only [lowHeightCol]
    rw [lowHeightCol_topmatch, ih]
    clear ih
    congr 1
    split
    · rfl
    · rfl

theorem lowHang_col (walkableClimb : Int) (hf : rcHeightfield) (x y : Nat)
    (hx : x < hf.width) (hy : y < hf.height) :
    (rcFilterLowHangingWalkableObstacles walkableClimb hf).col x y =
      lowHangCol walkableClimb false RC_NULL_AREA 0 (hf.col x y) := by
  have hw : (rcFilterLowHangingWalkableObstacles walkableClimb hf).width = hf.width := rfl
  rw [rcHeightfield.col, hw, rcFilterLowHangingWalkableObstacles]
  simp only []
  rw [mapCols_getD]
  simp only [Nat.zero_add]
  by_cases hlen : x + y * hf.width < hf.spans.length
  · rw [if_pos hlen, if_pos (idx_lt_grid _ _ _ _ hx hy)]
    rfl
  · rw [if_neg hlen, rcHeightfield.col, getD_eq_default _ _ (by omega)]
    rfl

theorem lowHeight_col (walkableHeight : Int) (hf : rcHeightfield) (x y : Nat)
    (hx : x < hf.width) (hy : y < hf.height) :
    (rcFilterWalkableLowHeightSpans walkableHeight hf).col x y =
      lowHeightCol walkableHeight (hf.col x y) := by
  have hw : (rcFilterWalkableLowHeightSpans walkableHeight hf).width = hf.width := rfl
  rw [rcHeightfield.col, hw, rcFilterWalkableLowHeightSpans]
  simp only []
  rw [mapCols_getD]
  simp only [Nat.zero_add]
  by_cases hlen : x + y * hf.width < hf.spans.length
  · rw [if_pos hlen, if_pos (idx_lt_grid _ _ _ _ hx hy)]
    rfl
  · rw [if_neg hlen, rcHeightfield.col, getD_eq_default _ _ (by omega)]
    rfl

theorem mapCols_mapCols (f g : Nat → List rcSpan → List rcSpan) :
    ∀ (i : Nat) (l : List (List rcSpan)),
    mapCols f i (mapCols g i l) = mapCols (fun j c => f j (g j c)) i l := by
  intro i l
  induction l generalizing i with
  | nil => rfl
  | cons c rest ih => simp [mapCols, ih]

theorem mapCols_congr (f g : Nat → List rcSpan → List rcSpan)
    (h : ∀ j c, f j c = g j c) : ∀ (i : Nat) (l : List (List rcSpan)),
    mapCols f i l = mapCols g i l := by
  intro i l
  induction l generalizing i with
  | nil => rfl
  | cons c rest ih => simp [mapCols, h, ih]

theorem mapCols_map_colGeom (f : Nat → List rcSpan → List rcSpan)
    (h : ∀ i c, colGeom (f i c) = colGeom c) : ∀ (i : Nat) (l : List (List rcSpan)),
    (mapCols f i l).map colGeom = l.map colGeom := by
  intro i l
  induction l generalizing i with
  | nil => rfl
  | cons c rest ih => simp [mapCols, h, ih]

/-! The claims. -/

/-- C3: an out-of-grid neighbour direction contributes exactly
`(-walkableClimb) - bot` to the running minimum `minh`; consequently a
walkable span at the grid edge with `bot = 0` and `walkableClimb = 2` gets a
boundary contribution of exactly `-2`, which is not `< -2`, so the span is
not marked a ledge purely from being at the boundary (shown on the 1×1 grid
`hfC3`, where all four directions are out of the grid). -/
theorem claim3_boundary :
    (∀ (walkableHeight walkableClimb : Int) (hf : rcHeightfield) (x y : Nat)
      (bot top : Int) (dir : Nat) (dirs : List Nat) (st : LedgeState),
      ((x : Int) + rcGetDirOffsetX dir < 0 ∨ (y : Int) + rcGetDirOffsetY dir < 0 ∨
        (x : Int) + rcGetDirOffsetX dir ≥ (hf.width : Int) ∨
        (y : Int) + rcGetDirOffsetY dir ≥ (hf.height : Int)) →
      ledgeDirs walkableHeight walkableClimb hf x y bot top (dir :: dirs) st =
        ledgeDirs walkableHeight walkableClimb hf x y bot top dirs
          { st with minh := min st.minh (-walkableClimb - bot) }) ∧
    rcFilterLedgeSpans 1 2 hfC3 = hfC3 := by
  constructor
  · intro walkableHeight walkableClimb hf x y bot top dir dirs st hob
    simp only [ledgeDirs]
    rw [if_pos hob]
  · decide

/-- Witness for C3 at a concrete input: direction 0 from cell `(0,0)` of the
1×1 grid leaves the grid, and its processing step is exactly the
`minh := min minh (-2 - 0)` update. -/
theorem claim3_witness :
    (((0 : Nat) : Int) + rcGetDirOffsetX 0 < 0 ∨ ((0 : Nat) : Int) + rcGetDirOffsetY 0 < 0 ∨
      ((0 : Nat) : Int) + rcGetDirOffsetX 0 ≥ (hfC3.width : Int) ∨
      ((0 : Nat) : Int) + rcGetDirOffsetY 0 ≥ (hfC3.height : Int)) ∧
    ledgeDirs 1 2 hfC3 0 0 0 MAX_HEIGHT [0] ⟨MAX_HEIGHT, 0, 0⟩ =
      ledgeDirs 1 2 hfC3 0 0 0 MAX_HEIGHT []
        { (⟨MAX_HEIGHT, 0, 0⟩ : LedgeState) with minh := min MAX_HEIGHT (-2 - 0) } :=
  ⟨by decide,
    claim3_boundary.1 1 2 hfC3 0 0 0 MAX_HEIGHT 0 [] ⟨MAX_HEIGHT, 0, 0⟩ (by decide)⟩

/-- C4: in the low-hanging-obstacle pass, the area of span `i` of a column
changes exactly when the span is non-walkable, its immediate predecessor is
walkable, and the gap between their top surfaces is at most `walkableClimb`
(`rescueCond`); in that case it receives the predecessor's area, the first
span is unchanged, and every other span keeps its area. -/
theorem claim4_lowhang_char (walkableClimb : Int) (hf : rcHeightfield) (x y i : Nat)
    (hx : x < hf.width) (hy : y < hf.height) (hi : i < (hf.col x y).length) :
    (((rcFilterLowHangingWalkableObstacles walkableClimb hf).col x y).getD i defSpan).area =
      if i = 0 then ((hf.col x y).getD i defSpan).area
      else if rescueCond walkableClimb ((hf.col x y).getD i defSpan)
          ((hf.col x y).getD (i - 1) defSpan)
        then ((hf.col x y).getD (i - 1) defSpan).area
      else ((hf.col x y).getD i defSpan).area := by
  rw [lowHang_col walkableClimb hf x y hx hy,
    lowHangCol_area walkableClimb (hf.col x y) false RC_NULL_AREA 0 i hi]
  cases i with
  | zero => simp
  | succ m => simp

/-- Witness for C4: the middle span of the `hfC5` column is rescued by the
walkable span below it. -/
theorem claim4_witness :
    (0 < hfC5.width ∧ 0 < hfC5.height ∧ 1 < (hfC5.col 0 0).length) ∧
    (((rcFilterLowHangingWalkableObstacles 2 hfC5).col 0 0).getD 1 defSpan).area =
      (if (1 : Nat) = 0 then ((hfC5.col 0 0).getD 1 defSpan).area
       else if rescueCond 2 ((hfC5.col 0 0).getD 1 defSpan) ((hfC5.col 0 0).getD (1 - 1) defSpan)
         then ((hfC5.col 0 0).getD (1 - 1) defSpan).area
       else ((hfC5.col 0 0).getD 1 defSpan).area) :=
  ⟨⟨by decide, by decide, by decide⟩,
    claim4_lowhang_char 2 hfC5 0 0 1 (by decide) (by decide) (by decide)⟩

/-- C5: propagation in the low-hanging-obstacle pass is single-hop — two
consecutive non-walkable spans can never both be rescued: the upper one stays
non-walkable; and on the concrete column `[walkable, top 0][non-walkable,
top 1][non-walkable, top 2]` with `walkableClimb = 2`, only the first
non-walkable span becomes walkable. -/
theorem claim5_single_hop :
    (∀ (walkableClimb : Int) (hf : rcHeightfield) (x y i : Nat),
      x < hf.width → y < hf.height → i + 1 < (hf.col x y).length →
      ((hf.col x y).getD i defSpan).area = RC_NULL_AREA →
      ((hf.col x y).getD (i + 1) defSpan).area = RC_NULL_AREA →
      (((rcFilterLowHangingWalkableObstacles walkableClimb hf).col x y).getD (i + 1)
        defSpan).area = RC_NULL_AREA) ∧
    rcFilterLowHangingWalkableObstacles 2 hfC5 =
      rcHeightfield.mk 1 1 [[⟨0, 0, 1⟩, ⟨1, 1, 1⟩, ⟨2, 2, 0⟩]] := by
  constructor
  · intro walkableClimb hf x y i hx hy hi h0 h1
    rw [lowHang_col walkableClimb hf x y hx hy,
      lowHangCol_area walkableClimb (hf.col x y) false RC_NULL_AREA 0 (i + 1) hi]
    simp only [Nat.add_sub_cancel]
    rw [if_neg (Nat.succ_ne_zero i)]
    have hnr : ¬ rescueCond walkableClimb ((hf.col x y).getD (i + 1) defSpan)
        ((hf.col x y).getD i defSpan) := fun h => h.2.1 h0
    rw [if_neg hnr]
    exact h1
  · decide

/-- Witness for C5: in `hfC5` the two upper spans are both non-walkable, and
after the pass the topmost one is still non-walkable. -/
theorem claim5_witness :
    (0 < hfC5.width ∧ 0 < hfC5.height ∧ 1 + 1 < (hfC5.col 0 0).length ∧
      ((hfC5.col 0 0).getD 1 defSpan).area = RC_NULL_AREA ∧
      ((hfC5.col 0 0).getD (1 + 1) defSpan).area = RC_NULL_AREA) ∧
    (((rcFilterLowHangingWalkableObstacles 2 hfC5).col 0 0).getD (1 + 1) defSpan).area =
      RC_NULL_AREA :=
  ⟨⟨by decide, by decide, by decide, by decide, by decide⟩,
    claim5_single_hop.1 2 hfC5 0 0 1 (by decide) (by decide) (by decide) (by decide) (by decide)⟩

/-- C6: the clearance pass nulls a span exactly when its clearance
`(next.smin or MAX_HEIGHT) - smax` is at most `walkableHeight` and leaves the
area unchanged otherwise; hence every span still walkable after the pass has
clearance strictly greater than `walkableHeight`. -/
theorem claim6_clearance :
    (∀ (walkableHeight : Int) (hf : rcHeightfield) (x y i : Nat),
      x < hf.width → y < hf.height → i < (hf.col x y).length →
      (((rcFilterWalkableLowHeightSpans walkableHeight hf).col x y).getD i defSpan).area =
        (if topAt (hf.col x y) i - (((hf.col x y).getD i defSpan).smax : Int) ≤ walkableHeight
          then RC_NULL_AREA else ((hf.col x y).getD i defSpan).area)) ∧
    (∀ (walkableHeight : Int) (hf : rcHeightfield) (x y i : Nat),
      x < hf.width → y < hf.height → i < (hf.col x y).length →
      (((rcFilterWalkableLowHeightSpans walkableHeight hf).col x y).getD i defSpan).area ≠
        RC_NULL_AREA →
      topAt (hf.col x y) i - (((hf.col x y).getD i defSpan).smax : Int) > walkableHeight) := by
  constructor
  · intro walkableHeight hf x y i hx hy hi
    rw [lowHeight_col walkableHeight hf x y hx hy,
      lowHeightCol_area walkableHeight (hf.col x y) i hi]
  · intro walkableHeight hf x y i hx hy hi hne
    rw [lowHeight_col walkableHeight hf x y hx hy,
      lowHeightCol_area walkableHeight (hf.col x y) i hi] at hne
    by_contra hle
    push_neg at hle
    rw [if_pos hle] at hne
    exact hne rfl

/-- Witness for C6: in `hfC8` the bottom span has clearance `1 ≤ 1` and is
nulled; in `hfC3` the single span has unbounded clearance, stays walkable,
and indeed satisfies the invariant. -/
theorem claim6_witness :
    ((0 < hfC8.width ∧ 0 < hfC8.height ∧ 0 < (hfC8.col 0 0).length) ∧
      (((rcFilterWalkableLowHeightSpans 1 hfC8).col 0 0).getD 0 defSpan).area =
        (if topAt (hfC8.col 0 0) 0 - (((hfC8.col 0 0).getD 0 defSpan).smax : Int) ≤ 1
          then RC_NULL_AREA else ((hfC8.col 0 0).getD 0 defSpan).area)) ∧
    ((0 < hfC3.width ∧ 0 < hfC3.height ∧ 0 < (hfC3.col 0 0).length ∧
      (((rcFilterWalkableLowHeightSpans 1 hfC3).col 0 0).getD 0 defSpan).area ≠
        RC_NULL_AREA) ∧
      topAt (hfC3.col 0 0) 0 - (((hfC3.col 0 0).getD 0 defSpan).smax : Int) > 1) :=
  ⟨⟨⟨by decide, by decide, by decide⟩,
      claim6_clearance.1 1 hfC8 0 0 0 (by decide) (by decide) (by decide)⟩,
    ⟨⟨by decide, by decide, by decide, by decide⟩,
      claim6_clearance.2 1 hfC3 0 0 0 (by decide) (by decide) (by decide) (by decide)⟩⟩

/-- C7: the clearance pass is idempotent — applying it twice yields exactly
the same heightfield as applying it once. -/
theorem claim7_idempotent (walkableHeight : Int) (hf : rcHeightfield) :
    rcFilterWalkableLowHeightSpans walkableHeight (rcFilterWalkableLowHeightSpans walkableHeight hf) =
      rcFilterWalkableLowHeightSpans walkableHeight hf := by
  apply hf_ext
  · rfl
  · rfl
  · show mapCols (fun i c => if i < hf.width * hf.height then lowHeightCol walkableHeight c else c) 0 (mapCols (fun i c => if i < hf.width * hf.height then lowHeightCol walkableHeight c else c) 0 hf.spans) = mapCols (fun i c => if i < hf.width * hf.height then lowHeightCol walkableHeight c else c) 0 hf.spans
    rw [mapCols_mapCols]
    apply mapCols_congr
    intro j c
    by_cases hj : j < hf.width * hf.height
    · simp only [if_pos hj, lowHeightCol_idem]
    · simp only [if_neg hj]

/-- C8: the low-hanging-obstacle pass and the ledge pass do not commute:
on `hfC8` with `walkableHeight = 1 > 0` and `walkableClimb = 1 ≥ 0`, the two
orders give different area assignments (the ledge pass re-nulls the rescued
span in one order and the rescue happens after the ledge pass in the other). -/
theorem claim8_non_commuting :
    (1 : Int) > 0 ∧ (1 : Int) ≥ 0 ∧
    rcFilterLedgeSpans 1 1 (rcFilterLowHangingWalkableObstacles 1 hfC8) ≠
      rcFilterLowHangingWalkableObstacles 1 (rcFilterLedgeSpans 1 1 hfC8) :=
  ⟨by decide, by decide, by decide⟩

/-- C9: each of the three passes changes only area bytes: grid dimensions and
every column's span geometry (count, order, `smin`, `smax`) are unchanged. -/
theorem claim9_frame (walkableHeight walkableClimb : Int) (hf : rcHeightfield) :
    hfGeom (rcFilterLowHangingWalkableObstacles walkableClimb hf) = hfGeom hf ∧
    hfGeom (rcFilterLedgeSpans walkableHeight walkableClimb hf) = hfGeom hf ∧
    hfGeom (rcFilterWalkableLowHeightSpans walkableHeight hf) = hfGeom hf := by
  refine ⟨?_, ?_, ?_⟩
  · have h : (rcFilterLowHangingWalkableObstacles walkableClimb hf).spans.map colGeom =
        hf.spans.map colGeom := by
      show (mapCols _ 0 hf.spans).map colGeom = hf.spans.map colGeom
      apply mapCols_map_colGeom
      intro i c
      by_cases hi : i < hf.width * hf.height
      · simp only [if_pos hi, colGeom_lowHangCol]
      · simp only [if_neg hi]
    show (_, _, (rcFilterLowHangingWalkableObstacles walkableClimb hf).spans.map colGeom) =
      (hf.width, hf.height, hf.spans.map colGeom)
    rw [h]
    rfl
  · have h : (rcFilterLedgeSpans walkableHeight walkableClimb hf).spans.map colGeom =
        hf.spans.map colGeom := by
      rw [rcFilterLedgeSpans_eq_snap]
      show (mapCols _ 0 hf.spans).map colGeom = hf.spans.map colGeom
      apply mapCols_map_colGeom
      intro i c
      by_cases hi : i < hf.width * hf.height
      · simp only [if_pos hi, colGeom_ledgeCol]
      · simp only [if_neg hi]
    have hw : (rcFilterLedgeSpans walkableHeight walkableClimb hf).width = hf.width := by
      rw [rcFilterLedgeSpans_eq_snap]; rfl
    have hh : (rcFilterLedgeSpans walkableHeight walkableClimb hf).height = hf.height := by
      rw [rcFilterLedgeSpans_eq_snap]; rfl
    show (_, _, (rcFilterLedgeSpans walkableHeight walkableClimb hf).spans.map colGeom) =
      (hf.width, hf.height, hf.spans.map colGeom)
    rw [h, hw, hh]
  · have h : (rcFilterWalkableLowHeightSpans walkableHeight hf).spans.map colGeom =
        hf.spans.map colGeom := by
      show (mapCols _ 0 hf.spans).map colGeom = hf.spans.map colGeom
      apply mapCols_map_colGeom
      intro i c
      by_cases hi : i < hf.width * hf.height
      · simp only [if_pos hi, colGeom_lowHeightCol]
      · simp only [if_neg hi]
    show (_, _, (rcFilterWalkableLowHeightSpans walkableHeight hf).spans.map colGeom) =
      (hf.width, hf.height, hf.spans.map colGeom)
    rw [h]
    rfl

/-- C10: the ledge pass has snapshot semantics — its sequential in-place
execution over any visiting order that covers each cell exactly once equals
the snapshot pass in which every span's decision is computed from the
pre-pass heightfield, and in particular the pass itself (row-major order)
does; so the result is independent of the visiting order. -/
theorem claim10_snapshot (walkableHeight walkableClimb : Int) (hf : rcHeightfield)
    (order : List (Nat × Nat))
    (hperm : order.Perm (allCells hf.width hf.height)) :
    ledgeSeq walkableHeight walkableClimb order hf =
      ledgeSnap walkableHeight walkableClimb hf ∧
    rcFilterLedgeSpans walkableHeight walkableClimb hf =
      ledgeSnap walkableHeight walkableClimb hf :=
  ⟨ledgeSeq_perm_eq_snap walkableHeight walkableClimb hf order hperm,
    rcFilterLedgeSpans_eq_snap walkableHeight walkableClimb hf⟩

/-- Witness for C10: on the 2×1 grid `hfC1`, visiting the cells in reverse
order gives the same result as the pass and as the snapshot semantics. -/
theorem claim10_witness :
    ([((1 : Nat), (0 : Nat)), (0, 0)].Perm (allCells hfC1.width hfC1.height)) ∧
    (ledgeSeq 1 3 [(1, 0), (0, 0)] hfC1 = ledgeSnap 1 3 hfC1 ∧
      rcFilterLedgeSpans 1 3 hfC1 = ledgeSnap 1 3 hfC1) :=
  ⟨by decide, claim10_snapshot 1 3 hfC1 [(1, 0), (0, 0)] (by decide)⟩

/-- Counterexample to C1 as stated. The claim says the virtual span
(`nbot = -walkableClimb`) updates `asmin`/`asmax` like any other non-excluded
accessible candidate. On `hfC1` (walkable span with `bot = 0`, neighbour
column holding `[2,3]`, `walkableHeight = 1`, `walkableClimb = 3`) the
claim's scan (`specLedgeScan true`) then yields `asmin = -3`, `asmax = 3`,
so `asmax - asmin = 6 > 3` and the claim predicts the span is marked
non-walkable — but the pass leaves it walkable, because the code updates
`asmin`/`asmax` only in the loop over real neighbour spans (RecastFilter.cpp
lines 144-149), never for the virtual span (lines 126-132). -/
theorem claim1_counterexample :
    ((hfC1.col 0 0).getD 0 defSpan).area ≠ RC_NULL_AREA ∧
    specLedgeMarked true 1 3 hfC1 0 0 (((hfC1.col 0 0).getD 0 defSpan).smax : Int)
      (topAt (hfC1.col 0 0) 0) = true ∧
    specLedgeScan true 1 3 hfC1 0 0 (((hfC1.col 0 0).getD 0 defSpan).smax : Int)
      (topAt (hfC1.col 0 0) 0) = ⟨-3, -3, 3⟩ ∧
    (((rcFilterLedgeSpans 1 3 hfC1).col 0 0).getD 0 defSpan).area ≠ RC_NULL_AREA :=
  ⟨by decide, by decide, by decide, by decide⟩

/-- C1 (amended: the virtual span contributes only to `minh`; `asmin`/`asmax`
are updated only for non-excluded real neighbour spans within the climb
bound): for every heightfield and every span that is walkable when the ledge
pass examines it, the pass marks it non-walkable if and only if the claim's
scan over the four directions — with the stated `minh`, overlap exclusion and
accessible extremes — satisfies `minh < -walkableClimb` or
`asmax - asmin > walkableClimb`. -/
theorem claim1_amended (walkableHeight walkableClimb : Int) (hf : rcHeightfield)
    (x y i : Nat) (hx : x < hf.width) (hy : y < hf.height)
    (hi : i < (hf.col x y).length)
    (hwalk : ((hf.col x y).getD i defSpan).area ≠ RC_NULL_AREA) :
    ((((rcFilterLedgeSpans walkableHeight walkableClimb hf).col x y).getD i defSpan).area
        = RC_NULL_AREA) ↔
      specLedgeMarked false walkableHeight walkableClimb hf x y
        (((hf.col x y).getD i defSpan).smax : Int) (topAt (hf.col x y) i) = true := by
  rw [rcFilterLedgeSpans_col walkableHeight walkableClimb hf x y hx hy,
    ledgeCol_getD walkableHeight walkableClimb hf x y (hf.col x y) i hi]
  show ledgeSpanArea walkableHeight walkableClimb hf x y ((hf.col x y).getD i defSpan)
      (topAt (hf.col x y) i) = RC_NULL_AREA ↔ _
  simp only [ledgeSpanArea]
  rw [if_neg hwalk, ledgeScan_eq_spec, specLedgeMarked]
  set st := specLedgeScan false walkableHeight walkableClimb hf x y
    (((hf.col x y).getD i defSpan).smax : Int) (topAt (hf.col x y) i) with hst
  set A := ((hf.col x y).getD i defSpan).area with hA
  by_cases h1 : st.minh < -walkableClimb
  · simp [h1]
  · by_cases h2 : st.asmax - st.asmin > walkableClimb
    · simp [h1, h2]
    · simp [h1, h2, hwalk]

/-- Witness for the amended C1 at a concrete input: the single walkable span
of the 1×1 grid `hfC3`, `walkableHeight = 1`, `walkableClimb = 2`. -/
theorem claim1_witness :
    (0 < hfC3.width ∧ 0 < hfC3.height ∧ 0 < (hfC3.col 0 0).length ∧
      ((hfC3.col 0 0).getD 0 defSpan).area ≠ RC_NULL_AREA) ∧
    ((((rcFilterLedgeSpans 1 2 hfC3).col 0 0).getD 0 defSpan).area = RC_NULL_AREA ↔
      specLedgeMarked false 1 2 hfC3 0 0 (((hfC3.col 0 0).getD 0 defSpan).smax : Int)
        (topAt (hfC3.col 0 0) 0) = true) :=
  ⟨⟨by decide, by decide, by decide, by decide⟩,
    claim1_amended 1 2 hfC3 0 0 0 (by decide) (by decide) (by decide) (by decide)⟩

/-- Counterexample to C2 as stated. On the 3×3 grid `hfC2` the centre span
has `bot = 0` and its four neighbour directions offer candidate surfaces at
heights `0, 0, 0, 5` relative to `bot`, each with sufficient overlap for
`walkableHeight = 1`; with `walkableClimb = 3` the claim asserts
`asmax = 5` and the span marked non-walkable, but the scan computes
`asmin = asmax = 0` (the height-5 candidate fails
`|nbot - bot| ≤ walkableClimb`, RecastFilter.cpp line 145) and the span
stays walkable. -/
theorem claim2_counterexample :
    ((hfC2.col 1 1).getD 0 defSpan).area ≠ RC_NULL_AREA ∧
    ((hfC2.col 1 1).getD 0 defSpan).smax = 0 ∧
    (ledgeDirs 1 3 hfC2 1 1 0 (topAt (hfC2.col 1 1) 0) [0, 1, 2, 3]
      ⟨MAX_HEIGHT, 0, 0⟩).asmax ≠ 5 ∧
    (((rcFilterLedgeSpans 1 3 hfC2).col 1 1).getD 0 defSpan).area ≠ RC_NULL_AREA :=
  ⟨by decide, by decide, by decide, by decide⟩

/-- C2 (amended): in the `hfC2` scenario (`walkableClimb = 3`, walkable span
with `bot = 0`, candidate surfaces at relative heights `0, 0, 0, 5`, each
with sufficient overlap), the height-5 candidate is not accessible because
`|5 - 0| ≤ 3` fails, so the scan computes `asmin = asmax = 0` (and
`minh = 0`), neither threshold fires, and the span is left walkable with its
area unchanged. -/
theorem claim2_amended :
    ¬ (|((5 : Int)) - (((hfC2.col 1 1).getD 0 defSpan).smax : Int)| ≤ 3) ∧
    ledgeDirs 1 3 hfC2 1 1 0 (topAt (hfC2.col 1 1) 0) [0, 1, 2, 3]
      ⟨MAX_HEIGHT, 0, 0⟩ = ⟨0, 0, 0⟩ ∧
    (((rcFilterLedgeSpans 1 3 hfC2).col 1 1).getD 0 defSpan).area =
      ((hfC2.col 1 1).getD 0 defSpan).area :=
  ⟨by decide, by decide, by decide⟩
